import Mathlib

/-!
Verification of the core of `src/fixed_income/data.py`: the cashflow/maturity
matrix builder `cashflows_matrix` (lines 135-161) and the price-tick parser
`to_decimal_price` (lines 164-174).

Modelling conventions.
Python floats are modelled as exact rationals; every quantity the claims touch
is dyadic, hence exactly representable in binary floating point, so no rounding
behaviour is lost.  A pandas DataFrame row is modelled as a `Security` record
carrying the row label produced by `iterrows` together with the `MATURITY` and
`COUPON` columns.  The source computes the column count from
`(MATURITY_DATE - quote_date) / np.timedelta64(6, "M")` while each row uses
`row["MATURITY"] / 0.5`; `treasury_direct_prices` defines `MATURITY` as the
same date difference divided by `np.timedelta64(1, "Y")`, and the six-month
unit is exactly half the one-year unit, so both quotients equal
`time_to_maturity / 0.5` and we model that common value.  numpy mutation is
modelled by explicit state passing; every Python exception (`ValueError`,
`IndexError`, `AssertionError`, numpy shape errors) becomes an explicit error
value, named following the taxonomy the specification uses for them.
-/

namespace FixedIncome

/-- Failure modes of `cashflows_matrix`.  The Python code raises ordinary
exceptions; the constructors record which statement raises. -/
inductive BuildError
  /-- On an empty batch the max of an empty series is NaN and
  `int(np.ceil(nan))` raises `ValueError`; the spec calls this
  `EmptyBatchError`. -/
  | emptyBatch
  /-- numpy scalar indexing outside `[-size, size)` raises `IndexError`. -/
  | indexError
  /-- numpy `np.ones((1, k))` or `np.zeros((n, k))` with `k < 0` raises
  `ValueError: negative dimensions are not allowed`. -/
  | negativeDimension
  /-- numpy slice assignment whose right-hand side does not fit the slice
  raises a broadcast `ValueError`. -/
  | broadcastMismatch
  deriving DecidableEq, Repr

/-- Failure modes of `to_decimal_price`, named as in the specification.
`malformedPrice` covers `ValueError` from `int(handles_and_fraction[0])` and
`IndexError` from `handles_and_fraction[1]`; `invalidTick` covers `ValueError`
from `int(handles_and_fraction[1][:2])` and the `assert ticks < 32`;
`invalidFraction` covers `ValueError` from `int(handles_and_fraction[1][2])`
and the membership assert on the fraction table. -/
inductive PriceError
  | malformedPrice
  | invalidTick
  | invalidFraction
  deriving DecidableEq, Repr

/-- One row of the `treasury_direct_df` DataFrame as `cashflows_matrix` reads
it: `label` is the index label yielded by `iterrows`, `maturity` is the
`MATURITY` column (time to maturity in years) and `coupon` is the `COUPON`
column (annual rate in percent). -/
structure Security where
  label : ℤ
  maturity : ℚ
  coupon : ℚ
  deriving DecidableEq, Repr

/-- Matrices are lists of rows of rationals. -/
abbrev Mat := List (List ℚ)

/-- The per-security period count `int(np.ceil(row["MATURITY"] / 0.5))`. -/
def semiPeriods (m : ℚ) : ℤ := ⌈m / (1 / 2 : ℚ)⌉

/-- Resolution of a (possibly negative) numpy index against an axis of the
given size: indices in `[-size, size)` resolve, negative ones counting from
the end; anything else is an `IndexError`. -/
def npIndex (size : ℕ) (i : ℤ) : Option ℕ :=
  if 0 ≤ i then
    if i < (size : ℤ) then some i.toNat else none
  else
    if -(size : ℤ) ≤ i then some (i + size).toNat else none

/-- Checked scalar write `row[c] = v` for a non-negative index. -/
def setCol (row : List ℚ) (c : ℕ) (v : ℚ) : Except BuildError (List ℚ) :=
  if c < row.length then .ok (row.set c v) else .error .indexError

/-- Checked scalar write `row[c] = v` for an arbitrary (possibly negative)
numpy index. -/
def setColZ (row : List ℚ) (c : ℤ) (v : ℚ) : Except BuildError (List ℚ) :=
  match npIndex row.length c with
  | some j => .ok (row.set j v)
  | none => .error .indexError

/-- Slice assignment `row[:len(vals)] = vals` with an array right-hand side:
numpy clips the slice to the row, then requires the lengths to agree. -/
def setSlice (row : List ℚ) (vals : List ℚ) : Except BuildError (List ℚ) :=
  if vals.length ≤ row.length then .ok (vals ++ row.drop vals.length)
  else .error .broadcastMismatch

/-- Slice assignment `row[:k] = v` with a scalar right-hand side: the scalar
broadcasts onto the clipped slice, so this never fails. -/
def setSliceScalar (row : List ℚ) (k : ℕ) (v : ℚ) : List ℚ :=
  List.replicate (min k row.length) v ++ row.drop k

/-- The backward coupon times
`row["MATURITY"] - (0.5 * np.ones((1, k))).cumsum()[::-1]`, that is
`[m - 0.5*k, m - 0.5*(k-1), ..., m - 0.5]`. -/
def backTimes (m : ℚ) (k : ℕ) : List ℚ :=
  (List.range k).map fun j => m - (1 / 2 : ℚ) * ((k - j : ℕ) : ℚ)

/-- Body of the `for i, row in treasury_direct_df.iterrows()` loop for one
security: writes go to matrix row `i - 1` where `i` is the row label, and the
statements run in source order, short-circuiting on the first exception. -/
def fillSecurity (n : ℕ) (acc : Mat × Mat) (s : Security) :
    Except BuildError (Mat × Mat) :=
  match npIndex n (s.label - 1) with
  | none => .error .indexError
  | some r =>
    let sp := semiPeriods s.maturity
    if sp = 0 then
      -- maturities[i-1, 0] = row["MATURITY"]; cashflows[i-1, 0] = 100
      match setCol (acc.2.getD r []) 0 s.maturity with
      | .error e => .error e
      | .ok mrow =>
        match setCol (acc.1.getD r []) 0 100 with
        | .error e => .error e
        | .ok crow => .ok (acc.1.set r crow, acc.2.set r mrow)
    else
      -- maturities[i-1, semi_periods - 1] = row["MATURITY"]
      match setColZ (acc.2.getD r []) (sp - 1) s.maturity with
      | .error e => .error e
      | .ok mrow1 =>
        -- np.ones((1, semi_periods - 1)) rejects a negative dimension
        if sp - 1 < 0 then .error .negativeDimension
        else
          -- maturities[i-1, :(semi_periods-1)] = backward coupon times
          match setSlice mrow1 (backTimes s.maturity (sp - 1).toNat) with
          | .error e => .error e
          | .ok mrow2 =>
            -- cashflows[i-1, :semi_periods] = semi_coupon
            let crow1 := setSliceScalar (acc.1.getD r []) sp.toNat (s.coupon / 2)
            -- cashflows[i-1, semi_periods - 1] += 100
            match setCol crow1 (sp - 1).toNat (crow1.getD (sp - 1).toNat 0 + 100) with
            | .error e => .error e
            | .ok crow2 => .ok (acc.1.set r crow2, acc.2.set r mrow2)

/-- Column count of the batch,
`int(np.ceil(((MATURITY_DATE - quote_date) / np.timedelta64(6, "M")).max()))`;
see the module docstring for why this equals `ceil(max maturity / 0.5)`.  On
an empty batch the max is NaN and the conversion raises. -/
def maxSemiPeriods : List Security → Except BuildError ℤ
  | [] => .error .emptyBatch
  | s :: rest => .ok (semiPeriods (rest.foldl (fun a t => max a t.maturity) s.maturity))

/-- The whole `for` loop of `cashflows_matrix`, threading the two matrices. -/
def fillAll (n : ℕ) (acc : Mat × Mat) : List Security → Except BuildError (Mat × Mat)
  | [] => .ok acc
  | s :: rest =>
    match fillSecurity n acc s with
    | .error e => .error e
    | .ok acc2 => fillAll n acc2 rest

/-- Zero-filled matrix `np.zeros((n, N))`. -/
def zerosMat (n N : ℕ) : Mat := List.replicate n (List.replicate N (0 : ℚ))

/-- The builder `cashflows_matrix` of `src/fixed_income/data.py`, returning
the pair `(cashflows, maturities)` exactly as the source does. -/
def cashflows_matrix (rows : List Security) : Except BuildError (Mat × Mat) :=
  match maxSemiPeriods rows with
  | .error e => .error e
  | .ok spMax =>
    if spMax < 0 then .error .negativeDimension
    else
      fillAll rows.length
        (zerosMat rows.length spMax.toNat, zerosMat rows.length spMax.toNat) rows

/-- Column count as a natural number, for stating shape facts; equals the `N`
used by a successful `cashflows_matrix` call. -/
def nCols (rows : List Security) : ℕ :=
  match rows with
  | [] => 0
  | s :: rest => (semiPeriods (rest.foldl (fun a t => max a t.maturity) s.maturity)).toNat

/-- Statement vocabulary: the batch carries the default consecutive one-based
index labels `1, 2, ..., n` in input order (the situation in which writing to
row `label - 1` lands each security in its own positional row). -/
def labelsOneBased (rows : List Security) : Prop :=
  ∀ idx, idx < rows.length → (rows.getD idx ⟨0, 0, 0⟩).label = (idx : ℤ) + 1

/- ---------------------------------------------------------------------- -/
/- The price-tick parser. -/

/-- The tick separator, the apostrophe character (code point 39). -/
def tickSep : Char := Char.ofNat 39

/-- Accumulator for the decimal value of a digit string. -/
def digitsValAux : List Char → ℕ → Option ℕ
  | [], acc => some acc
  | c :: rest, acc =>
    if c.isDigit then digitsValAux rest (10 * acc + (c.toNat - 48)) else none

/-- Value of a non-empty all-digit string, `none` otherwise. -/
def digitsVal (s : List Char) : Option ℕ :=
  if s.isEmpty then none else digitsValAux s 0

/-- Python `int()` on a string: an optional single sign followed by a
non-empty run of digits.  (Python additionally strips surrounding whitespace
and allows underscore digit separators; no caller or claim exercises those
forms, so they are not modelled.) -/
def pyInt (s : List Char) : Option ℤ :=
  match s with
  | [] => none
  | c :: rest =>
    if c = Char.ofNat 45 then (digitsVal rest).map fun v => -(v : ℤ)
    else if c = Char.ofNat 43 then (digitsVal rest).map fun v => (v : ℤ)
    else (digitsVal (c :: rest)).map fun v => (v : ℤ)

/-- Python `str.split` on a single-character separator: keeps empty pieces
and always returns at least one piece. -/
def pySplit (sepc : Char) : List Char → List (List Char)
  | [] => [[]]
  | c :: rest =>
    if c = sepc then [] :: pySplit sepc rest
    else
      match pySplit sepc rest with
      | [] => [[c]]
      | hd :: tl => (c :: hd) :: tl

/-- The fixed table
`partial_tick_value = {0: 0.0, 2: 0.25 / 32, 5: 0.5 / 32, 7: 0.75 / 32}`
combined with the membership assert: `none` models the failing assert. -/
def tickTable (p : ℤ) : Option ℚ :=
  if p = 0 then some 0
  else if p = 2 then some ((1 / 4 : ℚ) / 32)
  else if p = 5 then some ((1 / 2 : ℚ) / 32)
  else if p = 7 then some ((3 / 4 : ℚ) / 32)
  else none

/-- The parser `to_decimal_price` of `src/fixed_income/data.py`.  The token is
a list of characters; statements run in source order and the first failing
one determines the error. -/
def to_decimal_price (price_in_32s : List Char) : Except PriceError ℚ :=
  let handles_and_fraction := pySplit tickSep price_in_32s
  -- handles = int(handles_and_fraction[0])
  match pyInt (handles_and_fraction.headD []) with
  | none => .error .malformedPrice
  | some handles =>
    -- handles_and_fraction[1] raises IndexError when absent
    match handles_and_fraction[1]? with
    | none => .error .malformedPrice
    | some second =>
      -- ticks = int(handles_and_fraction[1][:2])
      match pyInt (second.take 2) with
      | none => .error .invalidTick
      | some ticks =>
        -- assert ticks < 32
        if 32 ≤ ticks then .error .invalidTick
        else
          -- partial_ticks = int(handles_and_fraction[1][2]) if len > 2 else 0
          match (if 2 < second.length then pyInt [second.getD 2 (Char.ofNat 0)] else some 0) with
          | none => .error .invalidFraction
          | some fracCode =>
            -- assert partial_ticks in partial_tick_value.keys(); then look up
            match tickTable fracCode with
            | none => .error .invalidFraction
            | some fracVal => .ok ((handles : ℚ) + (ticks : ℚ) / 32 + fracVal)

/-- Fraction table as the specification states it: the optional third digit
`{0, 2, 5, 7}` denotes `{0, 1/4, 1/2, 3/4}` of one 32nd (used only to state
claim C3). -/
def fracOf (fopt : Option Char) : ℚ :=
  match fopt with
  | none => 0
  | some c =>
    if c = '2' then 1 / 4
    else if c = '5' then 1 / 2
    else if c = '7' then 3 / 4
    else 0

/- ---------------------------------------------------------------------- -/
/- Structural lemmas about the parser's pieces. -/

theorem digitsValAux_all_digits {s : List Char} {acc v : ℕ}
    (h : digitsValAux s acc = some v) : ∀ c ∈ s, c.isDigit = true := by
  induction s generalizing acc with
  | nil => intro c hc; cases hc
  | cons a rest ih =>
    by_cases ha : a.isDigit
    · intro c hc
      rcases List.mem_cons.mp hc with hc | hc
      · exact hc ▸ ha
      · have h' : digitsValAux rest (10 * acc + (a.toNat - 48)) = some v := by
          simpa [digitsValAux, ha] using h
        exact ih h' c hc
    · simp [digitsValAux, ha] at h

theorem digitsVal_all_digits {s : List Char} {v : ℕ}
    (h : digitsVal s = some v) : ∀ c ∈ s, c.isDigit = true := by
  have h' : digitsValAux s 0 = some v := by
    by_cases he : s.isEmpty
    · simp [digitsVal, he] at h
    · simpa [digitsVal, he] using h
  exact digitsValAux_all_digits h'

theorem digitsVal_nonempty {s : List Char} {v : ℕ} (h : digitsVal s = some v) :
    s ≠ [] := by
  intro he
  subst he
  simp [digitsVal] at h

theorem digitsVal_not_sep {s : List Char} {v : ℕ} (h : digitsVal s = some v) :
    tickSep ∉ s := by
  intro hmem
  exact absurd (digitsVal_all_digits h tickSep hmem) (by decide)

theorem pyInt_of_digitsVal {s : List Char} {v : ℕ} (h : digitsVal s = some v) :
    pyInt s = some (v : ℤ) := by
  match s, digitsVal_nonempty h with
  | c :: rest, _ =>
    have hd : c.isDigit = true := digitsVal_all_digits h c (by simp)
    have h45 : ¬(c = Char.ofNat 45) := by rintro rfl; exact absurd hd (by decide)
    have h43 : ¬(c = Char.ofNat 43) := by rintro rfl; exact absurd hd (by decide)
    simp [pyInt, h45, h43, h]

theorem pySplit_no_sep {sepc : Char} {t : List Char} (h : sepc ∉ t) :
    pySplit sepc t = [t] := by
  induction t with
  | nil => rfl
  | cons c rest ih =>
    have hc : ¬(c = sepc) := fun hh => h (hh ▸ List.mem_cons_self c rest)
    have hr : sepc ∉ rest := fun hm => h (List.mem_cons_of_mem _ hm)
    simp [pySplit, hc, ih hr]

theorem pySplit_append_sep {sepc : Char} {pre t : List Char} (h : sepc ∉ pre) :
    pySplit sepc (pre ++ sepc :: t) = pre :: pySplit sepc t := by
  induction pre with
  | nil => simp [pySplit]
  | cons c rest ih =>
    have hc : ¬(c = sepc) := fun hh => h (hh ▸ List.mem_cons_self c rest)
    have hr : sepc ∉ rest := fun hm => h (List.mem_cons_of_mem _ hm)
    simp [pySplit, if_neg hc, ih hr]

theorem digitsVal_pair {d1 d2 : Char} (h1 : d1.isDigit = true) (h2 : d2.isDigit = true) :
    digitsVal [d1, d2] = some (10 * (d1.toNat - 48) + (d2.toNat - 48)) := by
  simp [digitsVal, digitsValAux, h1, h2]

theorem digitsVal_single {c : Char} (h : c.isDigit = true) :
    digitsVal [c] = some (c.toNat - 48) := by
  simp [digitsVal, digitsValAux, h]

/- ---------------------------------------------------------------------- -/
/- Parser claims. -/

/-- Claim C2, counterexample: on the token `99'16+` — the market's literal
plus convention for a half tick — `to_decimal_price` does not return
`99.515625`: `int("+")` raises `ValueError` (an `InvalidFractionError` in the
specification's taxonomy), so the call fails. -/
theorem c2_counterexample :
    to_decimal_price (['9', '9'] ++ tickSep :: ['1', '6', '+'])
      = .error .invalidFraction := rfl

/-- Claim C2, amended: the half-tick convention this parser accepts is the
digit `5`, not the literal `+`: `to_decimal_price "99'165"` returns
`99 + 16/32 + (1/2)/32 = 99.515625`, while the token `99'16+` fails with
`InvalidFractionError` (shown in the counterexample). -/
theorem c2_amended_half_tick :
    to_decimal_price (['9', '9'] ++ tickSep :: ['1', '6', '5'])
      = .ok (6369 / 64) := by
  have h : to_decimal_price (['9', '9'] ++ tickSep :: ['1', '6', '5'])
      = .ok (((99 : ℤ) : ℚ) + ((16 : ℤ) : ℚ) / 32 + (1 / 2 : ℚ) / 32) := rfl
  rw [h]
  norm_num

/-- Claim C3 (confirmed): for every well-formed token `handle'ticks[frac]` —
`handle` a digit string of value `h`, `ticks` two digits of joint value at
most 31, and optional `frac` one of the digits 0, 2, 5, 7 denoting 0, 1/4,
1/2, 3/4 of one 32nd — `to_decimal_price` succeeds and returns
`handle + ticks/32 + frac_value/32`.  The spec's scenario values
`99'16 = 99.5`, `99'162 = 99.5078125`, `100'31 = 100.96875` are instances. -/
theorem c3_wellFormed_parse (hs : List Char) (h : ℕ) (hh : digitsVal hs = some h)
    (d1 d2 : Char) (h1 : d1.isDigit = true) (h2 : d2.isDigit = true)
    (ht : 10 * (d1.toNat - 48) + (d2.toNat - 48) ≤ 31)
    (fopt : Option Char)
    (hf : fopt = none ∨ fopt = some '0' ∨ fopt = some '2' ∨ fopt = some '5' ∨ fopt = some '7') :
    to_decimal_price (hs ++ tickSep :: (d1 :: d2 :: fopt.toList))
      = .ok ((h : ℚ) + ((10 * (d1.toNat - 48) + (d2.toNat - 48) : ℕ) : ℚ) / 32
          + fracOf fopt / 32) := by
  have hsep : tickSep ∉ hs := digitsVal_not_sep hh
  have htail : tickSep ∉ (d1 :: d2 :: fopt.toList) := by
    intro hm
    rcases List.mem_cons.mp hm with hm | hm
    · exact absurd (hm ▸ h1) (by decide)
    rcases List.mem_cons.mp hm with hm | hm
    · exact absurd (hm ▸ h2) (by decide)
    · rcases hf with rfl | rfl | rfl | rfl | rfl <;> revert hm <;> decide
  have h32 : ¬(32 ≤ ((10 * (d1.toNat - 48) + (d2.toNat - 48) : ℕ) : ℤ)) := by
    have : ((10 * (d1.toNat - 48) + (d2.toNat - 48) : ℕ) : ℤ) ≤ 31 := by exact_mod_cast ht
    omega
  have p0 : pyInt ['0'] = some 0 := rfl
  have p2 : pyInt ['2'] = some 2 := rfl
  have p5 : pyInt ['5'] = some 5 := rfl
  have p7 : pyInt ['7'] = some 7 := rfl
  have hno : pySplit tickSep (d1 :: d2 :: fopt.toList) = [d1 :: d2 :: fopt.toList] :=
    pySplit_no_sep htail
  simp only [to_decimal_price, pySplit_append_sep hsep, hno, List.headD_cons,
    pyInt_of_digitsVal hh, List.getElem?_cons_succ, List.getElem?_cons_zero,
    List.take_succ_cons, List.take_zero, pyInt_of_digitsVal (digitsVal_pair h1 h2),
    if_neg h32, List.length_cons]
  rcases hf with rfl | rfl | rfl | rfl | rfl <;>
    norm_num [Option.toList, p0, p2, p5, p7, tickTable, fracOf] <;>
    push_cast <;>
    ring_nf

/-- Claim C3, witness: the parse of `99'162` through `c3_wellFormed_parse`,
instantiating every hypothesis at the concrete token. -/
theorem c3_witness :
    digitsVal ['9', '9'] = some 99 ∧
    to_decimal_price (['9', '9'] ++ tickSep :: ('1' :: '6' :: (some '2').toList))
      = .ok ((99 : ℚ) + ((10 * ('1'.toNat - 48) + ('6'.toNat - 48) : ℕ) : ℚ) / 32
          + fracOf (some '2') / 32) :=
  ⟨by decide, c3_wellFormed_parse ['9', '9'] 99 (by decide) '1' '6' (by decide) (by decide)
    (by decide) (some '2') (by simp)⟩

/-- Claim C8, counterexample: the tick field `-1` parses to the value `-1`,
which is outside `[0, 31]`, yet `to_decimal_price "0'-1"` does not fail with
`InvalidTickError`: Python's `int` accepts the sign and the code asserts only
the upper bound, so the call returns `0 + (-1)/32`. -/
theorem c8_counterexample :
    to_decimal_price (['0'] ++ tickSep :: ['-', '1']) = .ok (-(1 / 32 : ℚ)) := by
  have h : to_decimal_price (['0'] ++ tickSep :: ['-', '1'])
      = .ok (((0 : ℤ) : ℚ) + ((-1 : ℤ) : ℚ) / 32 + 0) := rfl
  rw [h]
  norm_num

/-- Claim C8, amended: for every token whose second split part exists and
whose handle is numeric, a tick field that is non-numeric or parses to a
value at least 32 makes `to_decimal_price` fail with `InvalidTickError`; the
lower bound of `[0, 31]` is not enforced (see the counterexample). -/
theorem c8_amended_tick_errors (t u : List Char) (hv : ℤ)
    (hh : pyInt ((pySplit tickSep t).headD []) = some hv)
    (h2 : (pySplit tickSep t)[1]? = some u)
    (htick : pyInt (u.take 2) = none ∨ ∃ v, pyInt (u.take 2) = some v ∧ 32 ≤ v) :
    to_decimal_price t = .error .invalidTick := by
  rcases htick with hnone | ⟨v, hsome, h32⟩
  · simp only [to_decimal_price, hh, h2, hnone]
  · simp only [to_decimal_price, hh, h2, hsome, if_pos h32]

/-- Claim C8, witness: the spec's own scenario `parse("100'32")`, through
`c8_amended_tick_errors` at the concrete token. -/
theorem c8_witness :
    pyInt ((pySplit tickSep (['1', '0', '0'] ++ tickSep :: ['3', '2'])).headD []) = some 100 ∧
    (pySplit tickSep (['1', '0', '0'] ++ tickSep :: ['3', '2']))[1]? = some ['3', '2'] ∧
    to_decimal_price (['1', '0', '0'] ++ tickSep :: ['3', '2']) = .error .invalidTick :=
  ⟨by decide, by decide,
    c8_amended_tick_errors _ ['3', '2'] 100 (by decide) (by decide)
      (Or.inr ⟨32, by decide, by decide⟩)⟩

/-- Claim C9, counterexample: a token with two separators is not rejected:
`to_decimal_price "1'16'99"` ignores everything after the second part and
returns `1.5` instead of failing with `MalformedPriceError`. -/
theorem c9_counterexample :
    to_decimal_price (['1'] ++ tickSep :: ['1', '6'] ++ tickSep :: ['9', '9'])
      = .ok (3 / 2) := by
  have h : to_decimal_price (['1'] ++ tickSep :: ['1', '6'] ++ tickSep :: ['9', '9'])
      = .ok (((1 : ℤ) : ℚ) + ((16 : ℤ) : ℚ) / 32 + 0) := rfl
  rw [h]
  norm_num

/-- Claim C9, amended: `to_decimal_price` fails with `MalformedPriceError`
when the token contains no separator at all, or when its first split part is
not an (optionally signed) integer; extra separators beyond the first are
not rejected (see the counterexample), and a signed handle is accepted. -/
theorem c9_amended_malformed (t : List Char)
    (h : tickSep ∉ t ∨ pyInt ((pySplit tickSep t).headD []) = none) :
    to_decimal_price t = .error .malformedPrice := by
  rcases h with hnosep | hbad
  · rw [to_decimal_price, pySplit_no_sep hnosep]
    cases hp : pyInt (([t] : List (List Char)).headD []) with
    | none => simp [hp]
    | some v => simp [hp]
  · simp only [to_decimal_price, hbad]

/-- Claim C9, witness: a bare digit string with no separator fails with
`MalformedPriceError`, through `c9_amended_malformed`. -/
theorem c9_witness :
    tickSep ∉ ['9', '9'] ∧
    to_decimal_price ['9', '9'] = .error .malformedPrice :=
  ⟨by decide, c9_amended_malformed ['9', '9'] (Or.inl (by decide))⟩

/-- Claim C10 (confirmed): when the token has exactly one separator and the
segment after it is longer than three characters, every character past the
third is silently ignored: the parse equals the parse of the token truncated
to two tick digits plus one fraction digit. -/
theorem c10_extra_chars_ignored (xpre u : List Char)
    (hx : tickSep ∉ xpre) (hu : tickSep ∉ u) (hlen : 3 < u.length) :
    to_decimal_price (xpre ++ tickSep :: u)
      = to_decimal_price (xpre ++ tickSep :: u.take 3) := by
  have hu3 : tickSep ∉ u.take 3 := fun hm => hu (List.take_subset 3 u hm)
  have htake : (u.take 3).take 2 = u.take 2 := by
    rw [List.take_take]
    norm_num
  have hgd : (u.take 3).getD 2 (Char.ofNat 0) = u.getD 2 (Char.ofNat 0) := by
    simp only [List.getD_eq_getElem?_getD, List.getElem?_take_of_lt (by omega : 2 < 3)]
  have hlen3 : (u.take 3).length = 3 := by
    rw [List.length_take]
    omega
  simp only [to_decimal_price, pySplit_append_sep hx, pySplit_no_sep hu,
    pySplit_no_sep hu3, List.headD_cons, List.getElem?_cons_succ, List.getElem?_cons_zero,
    htake, hgd, hlen3]
  have h2 : 2 < u.length := by omega
  simp only [if_pos h2, show (2 : ℕ) < 3 by omega, if_pos]

/-- Claim C10, witness: `99'16250` parses identically to `99'162`, through
`c10_extra_chars_ignored` at the concrete token. -/
theorem c10_witness :
    tickSep ∉ ['9', '9'] ∧ tickSep ∉ ['1', '6', '2', '5', '0'] ∧
    3 < (['1', '6', '2', '5', '0'] : List Char).length ∧
    to_decimal_price (['9', '9'] ++ tickSep :: ['1', '6', '2', '5', '0'])
      = to_decimal_price (['9', '9'] ++ tickSep :: (['1', '6', '2', '5', '0'] : List Char).take 3) :=
  ⟨by decide, by decide, by decide,
    c10_extra_chars_ignored ['9', '9'] ['1', '6', '2', '5', '0'] (by decide) (by decide)
      (by decide)⟩

/- ---------------------------------------------------------------------- -/
/- Row-level description of one loop iteration of the builder, and list
helpers used to prove it. -/

/-- Cashflow row the loop body leaves in the target row (starting from a zero
row): `coupon/2` in every period with `100` added at the final one, or a bare
`100` for a zero-period security. -/
def rowCF (N : ℕ) (s : Security) : List ℚ :=
  if semiPeriods s.maturity = 0 then (100 : ℚ) :: List.replicate (N - 1) 0
  else List.replicate ((semiPeriods s.maturity).toNat - 1) (s.coupon / 2)
    ++ (s.coupon / 2 + 100) :: List.replicate (N - (semiPeriods s.maturity).toNat) 0

/-- Maturity row the loop body leaves in the target row (starting from a zero
row): the backward coupon times followed by the maturity itself, or the
maturity at column 0 for a zero-period security. -/
def rowMat (N : ℕ) (s : Security) : List ℚ :=
  if semiPeriods s.maturity = 0 then s.maturity :: List.replicate (N - 1) 0
  else backTimes s.maturity ((semiPeriods s.maturity).toNat - 1)
    ++ s.maturity :: List.replicate (N - (semiPeriods s.maturity).toNat) 0

/-- Facts a successful loop iteration forces about one security's period
count relative to the column count. -/
def sideOK (N : ℕ) (s : Security) : Prop :=
  0 ≤ semiPeriods s.maturity ∧ semiPeriods s.maturity ≤ (N : ℤ) ∧
    (semiPeriods s.maturity = 0 → 1 ≤ N)

theorem replicate_set {α : Type} (a v : α) :
    ∀ (k N : ℕ), k < N →
      (List.replicate N a).set k v = List.replicate k a ++ v :: List.replicate (N - k - 1) a
  | 0, N + 1, _ => by simp [List.replicate_succ]
  | k + 1, N + 1, h => by
    have hrec := replicate_set a v k N (by omega)
    have harith : N + 1 - (k + 1) - 1 = N - k - 1 := by omega
    simp only [List.replicate_succ, List.set_cons_succ, hrec, harith, List.cons_append]

theorem drop_replicate {α : Type} (a : α) :
    ∀ (n m : ℕ), (List.replicate m a).drop n = List.replicate (m - n) a
  | 0, m => by simp
  | n + 1, 0 => by simp
  | n + 1, m + 1 => by
    simp only [List.replicate_succ, List.drop_succ_cons, drop_replicate a n m]
    congr 1
    omega

theorem drop_replicate_append {α : Type} (a : α) (k : ℕ) (l : List α) :
    (List.replicate k a ++ l).drop k = l :=
  List.drop_left' (by simp)

theorem take_set {α : Type} (x : α) (C : List α) (k : ℕ) (hk : k < C.length) :
    (C.set k x).take (k + 1) = C.take k ++ [x] := by
  rw [List.set_eq_take_cons_drop x hk, List.take_append_eq_append_take]
  have hlen : (C.take k).length = k := by
    rw [List.length_take]
    omega
  rw [hlen, List.take_take, show min (k + 1) k = k by omega,
    show k + 1 - k = 1 by omega]
  simp

theorem le_foldl_max (m0 : ℚ) (l : List Security) :
    m0 ≤ l.foldl (fun a t => max a t.maturity) m0 ∧
      ∀ s ∈ l, s.maturity ≤ l.foldl (fun a t => max a t.maturity) m0 := by
  induction l generalizing m0 with
  | nil => simp
  | cons s rest ih =>
    refine ⟨le_trans (le_max_left _ _) (ih (max m0 s.maturity)).1, ?_⟩
    intro t ht
    rcases List.mem_cons.mp ht with rfl | ht
    · exact le_trans (le_max_right _ _) (ih (max m0 t.maturity)).1
    · exact (ih (max m0 s.maturity)).2 t ht

/-- What one loop iteration does when the target row of both matrices is a
zero row of width `N`: the row becomes `rowCF`/`rowMat`, and the security's
period count satisfies `sideOK`. -/
theorem fillSecurity_zero_row {n : ℕ} {C M : Mat} {s : Security} {r N : ℕ}
    (hr : npIndex n (s.label - 1) = some r)
    (hC : C.getD r [] = List.replicate N 0) (hM : M.getD r [] = List.replicate N 0)
    {C' M' : Mat}
    (h : fillSecurity n (C, M) s = .ok (C', M')) :
    C' = C.set r (rowCF N s) ∧ M' = M.set r (rowMat N s) ∧ sideOK N s := by
  simp only [fillSecurity, hr, hC, hM] at h
  by_cases hsp0 : semiPeriods s.maturity = 0
  · rw [if_pos hsp0] at h
    simp only [setCol, List.length_replicate] at h
    by_cases hN : 0 < N
    · rw [if_pos hN, if_pos hN] at h
      simp only [Except.ok.injEq, Prod.mk.injEq] at h
      obtain ⟨hC', hM'⟩ := h
      have hset : ∀ v : ℚ, (List.replicate N (0 : ℚ)).set 0 v = v :: List.replicate (N - 1) 0 := by
        intro v
        rw [replicate_set (0 : ℚ) v 0 N hN]
        simp
      refine ⟨?_, ?_, ⟨by omega, by omega, fun _ => hN⟩⟩
      · rw [← hC', hset, rowCF, if_pos hsp0]
      · rw [← hM', hset, rowMat, if_pos hsp0]
    · rw [if_neg hN] at h
      exact absurd h (by simp)
  · rw [if_neg hsp0] at h
    simp only [setColZ, List.length_replicate] at h
    by_cases hneg : semiPeriods s.maturity < 0
    · have hm1 : semiPeriods s.maturity - 1 < 0 := by omega
      cases hnp : npIndex N (semiPeriods s.maturity - 1) with
      | none => simp only [hnp] at h; simp at h
      | some j => simp only [hnp, if_pos hm1] at h; simp at h
    · have hpos : 0 < semiPeriods s.maturity := by omega
      by_cases hltN : semiPeriods s.maturity - 1 < (N : ℤ)
      · have hnp : npIndex N (semiPeriods s.maturity - 1)
            = some (semiPeriods s.maturity - 1).toNat := by
          rw [npIndex, if_pos (by omega : (0 : ℤ) ≤ semiPeriods s.maturity - 1), if_pos hltN]
        have hkN : (semiPeriods s.maturity - 1).toNat < N := by omega
        have hsptN : (semiPeriods s.maturity).toNat ≤ N := by omega
        have hksp : (semiPeriods s.maturity - 1).toNat < (semiPeriods s.maturity).toNat := by
          omega
        have hbt : (backTimes s.maturity (semiPeriods s.maturity - 1).toNat).length
            = (semiPeriods s.maturity - 1).toNat := by
          rw [backTimes, List.length_map, List.length_range]
        have heq1 : N - (semiPeriods s.maturity - 1).toNat - 1
            = N - (semiPeriods s.maturity).toNat := by omega
        have hsl : setSlice
              ((List.replicate N (0 : ℚ)).set (semiPeriods s.maturity - 1).toNat s.maturity)
              (backTimes s.maturity (semiPeriods s.maturity - 1).toNat)
            = .ok (backTimes s.maturity (semiPeriods s.maturity - 1).toNat
                ++ s.maturity :: List.replicate (N - (semiPeriods s.maturity).toNat) 0) := by
          rw [setSlice, hbt, List.length_set, List.length_replicate, if_pos hkN.le,
            replicate_set (0 : ℚ) s.maturity _ N hkN, drop_replicate_append, heq1]
        have hcrow1 : setSliceScalar (List.replicate N (0 : ℚ))
              (semiPeriods s.maturity).toNat (s.coupon / 2)
            = List.replicate (semiPeriods s.maturity).toNat (s.coupon / 2)
              ++ List.replicate (N - (semiPeriods s.maturity).toNat) 0 := by
          rw [setSliceScalar, List.length_replicate, Nat.min_eq_left hsptN, drop_replicate]
        have hgd : (List.replicate (semiPeriods s.maturity).toNat (s.coupon / 2)
              ++ List.replicate (N - (semiPeriods s.maturity).toNat) (0 : ℚ)).getD
              (semiPeriods s.maturity - 1).toNat 0 = s.coupon / 2 := by
          rw [List.getD_eq_getElem?_getD,
            List.getElem?_append_left (by simpa using hksp),
            List.getElem?_replicate_of_lt hksp]
          rfl
        have hklen : (semiPeriods s.maturity - 1).toNat
            < (List.replicate (semiPeriods s.maturity).toNat (s.coupon / 2)
              ++ List.replicate (N - (semiPeriods s.maturity).toNat) (0 : ℚ)).length := by
          simp only [List.length_append, List.length_replicate]
          omega
        have h1 : (semiPeriods s.maturity - 1).toNat = (semiPeriods s.maturity).toNat - 1 := by
          omega
        have hcset : setCol (List.replicate (semiPeriods s.maturity).toNat (s.coupon / 2)
              ++ List.replicate (N - (semiPeriods s.maturity).toNat) 0)
              (semiPeriods s.maturity - 1).toNat (s.coupon / 2 + 100)
            = .ok (List.replicate ((semiPeriods s.maturity).toNat - 1) (s.coupon / 2)
              ++ (s.coupon / 2 + 100) :: List.replicate (N - (semiPeriods s.maturity).toNat) 0) := by
          rw [setCol, if_pos hklen,
            List.set_append_left _ _ (by simpa using hksp),
            replicate_set (s.coupon / 2) (s.coupon / 2 + 100) _ _ hksp]
          have h0 : (semiPeriods s.maturity).toNat - (semiPeriods s.maturity - 1).toNat - 1 = 0 := by
            omega
          rw [h0, h1]
          simp
        simp only [hnp, if_neg (show ¬(semiPeriods s.maturity - 1 < 0) by omega), hsl,
          hcrow1, hgd, hcset] at h
        simp only [Except.ok.injEq, Prod.mk.injEq] at h
        obtain ⟨hC', hM'⟩ := h
        refine ⟨?_, ?_, ⟨by omega, by omega, fun hz => absurd hz hsp0⟩⟩
        · rw [← hC', rowCF, if_neg hsp0]
        · rw [← hM', rowMat, if_neg hsp0, ← h1]
      · have hnp : npIndex N (semiPeriods s.maturity - 1) = none := by
          rw [npIndex, if_pos (by omega : (0 : ℤ) ≤ semiPeriods s.maturity - 1), if_neg hltN]
        simp only [hnp] at h
        simp at h

/-- Run of the loop over a suffix of the batch: if the pending securities
carry consecutive one-based labels continuing at position `k` and every row
from `k` on in both matrices is still a zero row of width `N`, a successful
run replaces rows `k, k+1, ...` by the `rowCF`/`rowMat` of the pending
securities, leaves the first `k` rows alone, and every pending security
satisfies `sideOK`. -/
theorem fillAll_eq (n N : ℕ) :
    ∀ (pending : List Security) (k : ℕ) (C M C' M' : Mat),
      C.length = n → M.length = n → k + pending.length = n →
      (∀ idx, idx < pending.length →
        (pending.getD idx ⟨0, 0, 0⟩).label = ((k + idx : ℕ) : ℤ) + 1) →
      (∀ j, k ≤ j → j < n →
        C.getD j [] = List.replicate N 0 ∧ M.getD j [] = List.replicate N 0) →
      fillAll n (C, M) pending = .ok (C', M') →
      C' = C.take k ++ pending.map (rowCF N) ∧ M' = M.take k ++ pending.map (rowMat N)
        ∧ ∀ s ∈ pending, sideOK N s
  | [], k, C, M, C', M' => by
    intro hCl hMl hk _ _ hrun
    simp only [fillAll, Except.ok.injEq, Prod.mk.injEq] at hrun
    obtain ⟨hC', hM'⟩ := hrun
    simp only [List.length_nil] at hk
    refine ⟨?_, ?_, by simp⟩
    · rw [← hC', show k = C.length by omega, List.take_length, List.map_nil, List.append_nil]
    · rw [← hM', show k = M.length by omega, List.take_length, List.map_nil, List.append_nil]
  | s :: rest, k, C, M, C', M' => by
    intro hCl hMl hk hlab hzero hrun
    have hkn : k < n := by
      have := hk
      simp only [List.length_cons] at this
      omega
    have hs0 : s.label = (k : ℤ) + 1 := by
      have := hlab 0 (by simp)
      simpa using this
    have hnp : npIndex n (s.label - 1) = some k := by
      have hsl : s.label - 1 = (k : ℤ) := by rw [hs0]; ring
      rw [npIndex, hsl, if_pos (Int.natCast_nonneg k),
        if_pos (by exact_mod_cast hkn)]
      simp
    simp only [fillAll] at hrun
    cases hstep : fillSecurity n (C, M) s with
    | error e => rw [hstep] at hrun; simp at hrun
    | ok acc2 =>
      rw [hstep] at hrun
      obtain ⟨C₂, M₂⟩ := acc2
      obtain ⟨hzC, hzM⟩ := hzero k le_rfl hkn
      obtain ⟨hC₂, hM₂, hside⟩ := fillSecurity_zero_row hnp hzC hzM hstep
      subst hC₂
      subst hM₂
      have hrest := fillAll_eq n N rest (k + 1) (C.set k (rowCF N s)) (M.set k (rowMat N s))
        C' M' (by simpa using hCl) (by simpa using hMl)
        (by simp only [List.length_cons] at hk; omega)
        (by
          intro idx hidx
          have := hlab (idx + 1) (by simp; omega)
          simp only [List.getD_cons_succ] at this
          rw [this]
          congr 1
          omega)
        (by
          intro j hj hjn
          have hne : k ≠ j := by omega
          obtain ⟨hzC', hzM'⟩ := hzero j (by omega) hjn
          constructor
          · rw [List.getD_eq_getElem?_getD, List.getElem?_set_ne hne,
              ← List.getD_eq_getElem?_getD _ _ ([] : List ℚ), hzC']
          · rw [List.getD_eq_getElem?_getD, List.getElem?_set_ne hne,
              ← List.getD_eq_getElem?_getD _ _ ([] : List ℚ), hzM'])
        hrun
      obtain ⟨hC', hM', hsides⟩ := hrest
      refine ⟨?_, ?_, ?_⟩
      · rw [hC', take_set (rowCF N s) C k (by omega)]
        simp
      · rw [hM', take_set (rowMat N s) M k (by omega)]
        simp
      · intro t ht
        rcases List.mem_cons.mp ht with rfl | ht
        · exact hside
        · exact hsides t ht

/-- Characterisation of a successful `cashflows_matrix` call on a batch whose
labels are the default consecutive one-based ones: row `i` of both outputs
describes security `i`, and each security's period count is between 0 and
the column count. -/
theorem cashflows_matrix_rows {rows : List Security} {C M : Mat}
    (hlab : labelsOneBased rows)
    (hok : cashflows_matrix rows = .ok (C, M)) :
    C = rows.map (rowCF (nCols rows)) ∧ M = rows.map (rowMat (nCols rows))
      ∧ ∀ s ∈ rows, sideOK (nCols rows) s := by
  match rows with
  | [] => simp [cashflows_matrix, maxSemiPeriods] at hok
  | s :: rest =>
    replace hok : (if semiPeriods (rest.foldl (fun a t => max a t.maturity) s.maturity) < 0
        then (Except.error BuildError.negativeDimension : Except BuildError (Mat × Mat))
        else fillAll (s :: rest).length
          (zerosMat (s :: rest).length
            (semiPeriods (rest.foldl (fun a t => max a t.maturity) s.maturity)).toNat,
           zerosMat (s :: rest).length
            (semiPeriods (rest.foldl (fun a t => max a t.maturity) s.maturity)).toNat)
          (s :: rest)) = .ok (C, M) := hok
    by_cases hneg : semiPeriods (rest.foldl (fun a t => max a t.maturity) s.maturity) < 0
    · rw [if_pos hneg] at hok
      simp at hok
    · rw [if_neg hneg] at hok
      have hlab' : ∀ idx, idx < (s :: rest).length →
          ((s :: rest).getD idx ⟨0, 0, 0⟩).label = ((0 + idx : ℕ) : ℤ) + 1 := by
        intro idx hidx
        simpa using hlab idx hidx
      have hlen : ∀ NN : ℕ, (zerosMat (s :: rest).length NN).length = (s :: rest).length := by
        intro NN
        rw [zerosMat, List.length_replicate]
      have hzrow : ∀ NN j : ℕ, j < (s :: rest).length →
          (zerosMat (s :: rest).length NN).getD j [] = List.replicate NN 0 := by
        intro NN j hjn
        rw [zerosMat, List.getD_eq_getElem?_getD, List.getElem?_replicate_of_lt hjn]
        rfl
      have key := fillAll_eq (s :: rest).length
        (semiPeriods (rest.foldl (fun a t => max a t.maturity) s.maturity)).toNat
        (s :: rest) 0
        (zerosMat (s :: rest).length
          (semiPeriods (rest.foldl (fun a t => max a t.maturity) s.maturity)).toNat)
        (zerosMat (s :: rest).length
          (semiPeriods (rest.foldl (fun a t => max a t.maturity) s.maturity)).toNat)
        C M
      have hk0 : 0 + (s :: rest).length = (s :: rest).length := Nat.zero_add _
      obtain ⟨hC, hM, hside⟩ := key (hlen _) (hlen _) hk0 hlab'
        (fun j _ hjn => ⟨hzrow _ j hjn, hzrow _ j hjn⟩) hok
      refine ⟨?_, ?_, ?_⟩
      · rw [hC]
        simp [nCols]
      · rw [hM]
        simp [nCols]
      · simpa [nCols] using hside

theorem getD_pos_lt {A : Mat} {r : ℕ} (h : 0 < (A.getD r []).length) : r < A.length := by
  by_contra hge
  rw [List.getD_eq_getElem?_getD, List.getElem?_eq_none (by omega)] at h
  simp at h

theorem getD_mem {A : Mat} {r : ℕ} (h : r < A.length) : A.getD r [] ∈ A := by
  rw [List.getD_eq_getElem?_getD, List.getElem?_eq_getElem h]
  simp only [Option.getD_some]
  exact List.getElem_mem h

theorem npIndex_some_pos {size : ℕ} {i : ℤ} {j : ℕ} (h : npIndex size i = some j) :
    0 < size := by
  rw [npIndex] at h
  by_cases h0 : 0 ≤ i
  · rw [if_pos h0] at h
    by_cases h1 : i < (size : ℤ)
    · omega
    · rw [if_neg h1] at h
      simp at h
  · rw [if_neg h0] at h
    by_cases h2 : -(size : ℤ) ≤ i
    · omega
    · rw [if_neg h2] at h
      simp at h

/-- Any successful loop iteration replaces exactly one row of each matrix —
the resolved (in-range) numpy row index — by a row of the same length. -/
theorem fillSecurity_structure {n : ℕ} {acc : Mat × Mat} {s : Security} {acc' : Mat × Mat}
    (h : fillSecurity n acc s = .ok acc') :
    ∃ r crow mrow, acc' = (acc.1.set r crow, acc.2.set r mrow)
      ∧ r < acc.1.length ∧ r < acc.2.length
      ∧ crow.length = (acc.1.getD r []).length
      ∧ mrow.length = (acc.2.getD r []).length := by
  simp only [fillSecurity] at h
  cases hr : npIndex n (s.label - 1) with
  | none => simp only [hr] at h; simp at h
  | some r =>
    simp only [hr] at h
    by_cases hsp0 : semiPeriods s.maturity = 0
    · rw [if_pos hsp0] at h
      simp only [setCol] at h
      by_cases hM : 0 < (acc.2.getD r []).length
      · rw [if_pos hM] at h
        by_cases hc : 0 < (acc.1.getD r []).length
        · rw [if_pos hc] at h
          simp only [Except.ok.injEq] at h
          exact ⟨r, _, _, h.symm, getD_pos_lt hc, getD_pos_lt hM, by simp, by simp⟩
        · rw [if_neg hc] at h
          simp at h
      · rw [if_neg hM] at h
        simp at h
    · rw [if_neg hsp0] at h
      simp only [setColZ] at h
      cases hnp : npIndex (acc.2.getD r []).length (semiPeriods s.maturity - 1) with
      | none => simp only [hnp] at h; simp at h
      | some j =>
        simp only [hnp] at h
        by_cases hneg : semiPeriods s.maturity - 1 < 0
        · rw [if_pos hneg] at h
          simp at h
        · rw [if_neg hneg] at h
          simp only [setSlice] at h
          by_cases hfit : (backTimes s.maturity (semiPeriods s.maturity - 1).toNat).length
              ≤ ((acc.2.getD r []).set j s.maturity).length
          · rw [if_pos hfit] at h
            simp only [setCol] at h
            by_cases hkl : (semiPeriods s.maturity - 1).toNat
                < (setSliceScalar (acc.1.getD r [])
                  (semiPeriods s.maturity).toNat (s.coupon / 2)).length
            · rw [if_pos hkl] at h
              simp only [Except.ok.injEq] at h
              have hM : 0 < (acc.2.getD r []).length := npIndex_some_pos hnp
              have hc : 0 < (acc.1.getD r []).length := by
                rw [setSliceScalar, List.length_append, List.length_replicate,
                  List.length_drop] at hkl
                omega
              refine ⟨r, _, _, h.symm, getD_pos_lt hc, getD_pos_lt hM, ?_, ?_⟩
              · rw [List.length_set, setSliceScalar, List.length_append,
                  List.length_replicate, List.length_drop]
                omega
              · rw [List.length_append, List.length_drop, List.length_set]
                rw [List.length_set] at hfit
                omega
            · rw [if_neg hkl] at h
              simp at h
          · rw [if_neg hfit] at h
            simp at h

/-- Shape invariant of the loop: a successful run preserves the number of
rows of each matrix and the (uniform) length of every row. -/
theorem fillAll_shape {n : ℕ} :
    ∀ (pending : List Security) (acc : Mat × Mat) (C' M' : Mat) (N : ℕ),
      fillAll n acc pending = .ok (C', M') →
      (∀ row ∈ acc.1, row.length = N) → (∀ row ∈ acc.2, row.length = N) →
      C'.length = acc.1.length ∧ M'.length = acc.2.length ∧
        (∀ row ∈ C', row.length = N) ∧ (∀ row ∈ M', row.length = N)
  | [], acc, C', M', N, h, hC, hM => by
    simp only [fillAll, Except.ok.injEq] at h
    subst h
    exact ⟨rfl, rfl, hC, hM⟩
  | s :: rest, acc, C', M', N, h, hC, hM => by
    simp only [fillAll] at h
    cases hstep : fillSecurity n acc s with
    | error e => rw [hstep] at h; simp at h
    | ok acc2 =>
      rw [hstep] at h
      obtain ⟨r, crow, mrow, hacc2, hrC, hrM, hcl, hml⟩ := fillSecurity_structure hstep
      subst hacc2
      have hC2 : ∀ row ∈ acc.1.set r crow, row.length = N := by
        intro row hrow
        rcases List.mem_or_eq_of_mem_set hrow with hrow | rfl
        · exact hC row hrow
        · rw [hcl]
          exact hC _ (getD_mem hrC)
      have hM2 : ∀ row ∈ acc.2.set r mrow, row.length = N := by
        intro row hrow
        rcases List.mem_or_eq_of_mem_set hrow with hrow | rfl
        · exact hM row hrow
        · rw [hml]
          exact hM _ (getD_mem hrM)
      obtain ⟨h1, h2, h3, h4⟩ := fillAll_shape rest _ C' M' N h hC2 hM2
      refine ⟨?_, ?_, h3, h4⟩
      · rw [h1, List.length_set]
      · rw [h2, List.length_set]

/- ---------------------------------------------------------------------- -/
/- Arithmetic facts about the period count, and row-level facts. -/

theorem semiPeriods_nonpos_of_neg {m : ℚ} (h : m < 0) : semiPeriods m ≤ 0 := by
  rw [semiPeriods]
  have h3 : m / (1 / 2 : ℚ) = 2 * m := by ring
  rw [h3]
  exact Int.ceil_le.mpr (by push_cast; linarith)

theorem maturity_nonpos_of_semiPeriods_nonpos {m : ℚ} (h : semiPeriods m ≤ 0) : m ≤ 0 := by
  rw [semiPeriods] at h
  have h3 : m / (1 / 2 : ℚ) = 2 * m := by ring
  rw [h3] at h
  have h1 := Int.le_ceil (2 * m)
  have h2 : ((⌈(2 * m : ℚ)⌉ : ℤ) : ℚ) ≤ 0 := by exact_mod_cast h
  linarith

theorem semiPeriods_zero : semiPeriods 0 = 0 := by
  rw [semiPeriods]
  norm_num

theorem rowCF_sum {N : ℕ} {s : Security} (h0 : 0 ≤ semiPeriods s.maturity) :
    (rowCF N s).sum = 100 + s.coupon / 2 * ((semiPeriods s.maturity).toNat : ℚ) := by
  rw [rowCF]
  by_cases hsp : semiPeriods s.maturity = 0
  · rw [if_pos hsp, hsp]
    simp [List.sum_replicate]
  · rw [if_neg hsp]
    rw [List.sum_append, List.sum_cons, List.sum_replicate, List.sum_replicate]
    have h1 : 1 ≤ (semiPeriods s.maturity).toNat := by omega
    rw [smul_zero, nsmul_eq_mul, Nat.cast_sub h1]
    push_cast
    ring

theorem rowCF_length {N : ℕ} {s : Security} (hside : sideOK N s) :
    (rowCF N s).length = N := by
  obtain ⟨h0, hN, h1⟩ := hside
  rw [rowCF]
  by_cases hsp : semiPeriods s.maturity = 0
  · rw [if_pos hsp]
    have := h1 hsp
    simp only [List.length_cons, List.length_replicate]
    omega
  · rw [if_neg hsp]
    simp only [List.length_append, List.length_cons, List.length_replicate]
    omega

theorem rowMat_length {N : ℕ} {s : Security} (hside : sideOK N s) :
    (rowMat N s).length = N := by
  obtain ⟨h0, hN, h1⟩ := hside
  rw [rowMat]
  by_cases hsp : semiPeriods s.maturity = 0
  · rw [if_pos hsp]
    have := h1 hsp
    simp only [List.length_cons, List.length_replicate]
    omega
  · rw [if_neg hsp]
    simp only [List.length_append, List.length_cons, List.length_replicate,
      backTimes, List.length_map, List.length_range]
    omega

/- ---------------------------------------------------------------------- -/
/- Concrete evaluations of the builder. -/

theorem semiPeriods_one : semiPeriods 1 = 2 := by
  unfold semiPeriods
  rw [Int.ceil_eq_iff] <;> norm_num

theorem semiPeriods_quarter : semiPeriods (1 / 4) = 1 := by
  unfold semiPeriods
  rw [Int.ceil_eq_iff] <;> norm_num

theorem semiPeriods_negQuarter : semiPeriods (-(1 / 4)) = 0 := by
  unfold semiPeriods
  rw [Int.ceil_eq_iff] <;> norm_num

/-- Evaluation of the spec's two-security scenario on a batch carrying the
one-based labels 1 and 2, under which the builder realises the positional
behaviour the spec describes. -/
theorem oneBased_scenario_eval :
    cashflows_matrix [⟨1, 1, 4⟩, ⟨2, 1 / 4, 0⟩]
      = .ok ([[2, 102], [100, 0]], [[1 / 2, 1], [1 / 4, 0]]) := by
  have hmax : max (1 : ℚ) (1 / 4) = 1 := max_eq_left (by norm_num)
  simp only [cashflows_matrix, maxSemiPeriods, List.foldl_cons, List.foldl_nil, hmax,
    semiPeriods_one, semiPeriods_quarter, zerosMat, fillAll, fillSecurity, npIndex, setCol,
    setColZ, setSlice, setSliceScalar, backTimes, List.replicate, List.length_cons,
    List.length_nil, List.getD_cons_zero, List.getD_cons_succ, List.set]
  norm_num [Int.toNat_ofNat, List.range_succ, List.range_zero, List.map_cons, List.map_nil,
    List.map_append, List.drop, List.set, List.replicate]

/-- Evaluation of a batch whose second security matures exactly on the
valuation date (`time_to_maturity = 0`), with one-based labels. -/
theorem zero_maturity_eval :
    cashflows_matrix [⟨1, 1, 4⟩, ⟨2, 0, 0⟩]
      = .ok ([[2, 102], [100, 0]], [[1 / 2, 1], [0, 0]]) := by
  have hmax : max (1 : ℚ) 0 = 1 := max_eq_left (by norm_num)
  simp only [cashflows_matrix, maxSemiPeriods, List.foldl_cons, List.foldl_nil, hmax,
    semiPeriods_one, semiPeriods_zero, zerosMat, fillAll, fillSecurity, npIndex, setCol,
    setColZ, setSlice, setSliceScalar, backTimes, List.replicate, List.length_cons,
    List.length_nil, List.getD_cons_zero, List.getD_cons_succ, List.set]
  norm_num [Int.toNat_ofNat, List.range_succ, List.range_zero, List.map_cons, List.map_nil,
    List.map_append, List.drop, List.set, List.replicate]

/-- Evaluation of a batch whose second security has a negative
time-to-maturity, with one-based labels: the builder succeeds and treats the
security like a zero-period one. -/
theorem negative_maturity_eval :
    cashflows_matrix [⟨1, 1, 4⟩, ⟨2, -(1 / 4), 0⟩]
      = .ok ([[2, 102], [100, 0]], [[1 / 2, 1], [-(1 / 4), 0]]) := by
  have hmax : max (1 : ℚ) (-(1 / 4)) = 1 := max_eq_left (by norm_num)
  simp only [cashflows_matrix, maxSemiPeriods, List.foldl_cons, List.foldl_nil, hmax,
    semiPeriods_one, semiPeriods_negQuarter, zerosMat, fillAll, fillSecurity, npIndex, setCol,
    setColZ, setSlice, setSliceScalar, backTimes, List.replicate, List.length_cons,
    List.length_nil, List.getD_cons_zero, List.getD_cons_succ, List.set]
  norm_num [Int.toNat_ofNat, List.range_succ, List.range_zero, List.map_cons, List.map_nil,
    List.map_append, List.drop, List.set, List.replicate]

/-- Evaluation of the spec's two-security scenario on a batch carrying the
pipeline's default 0-based labels 0 and 1: writing to row `label - 1` sends
the first security to numpy row `-1` (the last row), so the output rows come
out rotated relative to input order. -/
theorem zeroBased_scenario_eval :
    cashflows_matrix [⟨0, 1, 4⟩, ⟨1, 1 / 4, 0⟩]
      = .ok ([[100, 0], [2, 102]], [[1 / 4, 0], [1 / 2, 1]]) := by
  have hmax : max (1 : ℚ) (1 / 4) = 1 := max_eq_left (by norm_num)
  simp only [cashflows_matrix, maxSemiPeriods, List.foldl_cons, List.foldl_nil, hmax,
    semiPeriods_one, semiPeriods_quarter, zerosMat, fillAll, fillSecurity, npIndex, setCol,
    setColZ, setSlice, setSliceScalar, backTimes, List.replicate, List.length_cons,
    List.length_nil, List.getD_cons_zero, List.getD_cons_succ, List.set]
  norm_num [Int.toNat_ofNat, List.range_succ, List.range_zero, List.map_cons, List.map_nil,
    List.map_append, List.drop, List.set, List.replicate]

/-- Evaluation of a 0-based-labelled batch whose second security matures on
the valuation date: the rotation puts the zero-maturity row at position 0
and the long security's coupon row at position 1. -/
theorem zeroBased_zero_maturity_eval :
    cashflows_matrix [⟨0, 1, 4⟩, ⟨1, 0, 0⟩]
      = .ok ([[100, 0], [2, 102]], [[0, 0], [1 / 2, 1]]) := by
  have hmax : max (1 : ℚ) 0 = 1 := max_eq_left (by norm_num)
  simp only [cashflows_matrix, maxSemiPeriods, List.foldl_cons, List.foldl_nil, hmax,
    semiPeriods_one, semiPeriods_zero, zerosMat, fillAll, fillSecurity, npIndex, setCol,
    setColZ, setSlice, setSliceScalar, backTimes, List.replicate, List.length_cons,
    List.length_nil, List.getD_cons_zero, List.getD_cons_succ, List.set]
  norm_num [Int.toNat_ofNat, List.range_succ, List.range_zero, List.map_cons, List.map_nil,
    List.map_append, List.drop, List.set, List.replicate]

/- ---------------------------------------------------------------------- -/
/- Builder claims. -/

/-- Claim C1, code bug: the loop writes each security into matrix row
`label - 1`, where `label` is the DataFrame index label from `iterrows` —
not the 0-based input position the spec requires.  The repository's own
upstream (`treasury_direct_prices`, whose `pd.read_html` table carries the
default 0-based `RangeIndex`) therefore sends security 0 to numpy row `-1`,
the last row.  On the spec's scenario batch (A = maturity 1.0, coupon 4.0;
B = maturity 0.25, coupon 0.0) with those labels 0 and 1, the rows come out
rotated: row 0 holds B's values `[100, 0]` / `[1/4, 0]` and row 1 holds A's
`[2, 102]` / `[1/2, 1]`, contradicting the claimed row 0 = A, row 1 = B. -/
theorem c1_label_shift_eval :
    cashflows_matrix [⟨0, 1, 4⟩, ⟨1, 1 / 4, 0⟩]
      = .ok ([[100, 0], [2, 102]], [[1 / 4, 0], [1 / 2, 1]]) :=
  zeroBased_scenario_eval

/-- Claim C4, counterexample: a batch containing a security with negative
time-to-maturity (-0.25 years, labels one-based) does not fail with
`InvalidMaturityError`: the builder returns full matrices, treating the
security like a zero-period one. -/
theorem c4_counterexample :
    cashflows_matrix [⟨1, 1, 4⟩, ⟨2, -(1 / 4), 0⟩]
      = .ok ([[2, 102], [100, 0]], [[1 / 2, 1], [-(1 / 4), 0]]) :=
  negative_maturity_eval

/-- Claim C4, amended: the builder performs no maturity validation.  On a
one-based-labelled batch, a successful call gives any security with negative
time-to-maturity period count 0: its cashflow row is `100` at column 0 and
zeros elsewhere, exactly like a security maturing on the valuation date;
no `InvalidMaturityError` exists in the code. -/
theorem c4_amended_no_validation (rows : List Security) (C M : Mat)
    (hlab : labelsOneBased rows)
    (hok : cashflows_matrix rows = .ok (C, M))
    (i : ℕ) (s : Security) (hi : rows[i]? = some s) (hm : s.maturity < 0) :
    C.getD i [] = (100 : ℚ) :: List.replicate (nCols rows - 1) 0 := by
  obtain ⟨hC, _, hside⟩ := cashflows_matrix_rows hlab hok
  obtain ⟨hlt, hel⟩ := List.getElem?_eq_some_iff.mp hi
  have hmem : s ∈ rows := hel ▸ List.getElem_mem hlt
  have hsp : semiPeriods s.maturity = 0 :=
    le_antisymm (semiPeriods_nonpos_of_neg hm) (hside s hmem).1
  have hmap : (rows.map (rowCF (nCols rows)))[i]? = some (rowCF (nCols rows) s) := by
    rw [List.getElem?_map, hi]
    rfl
  rw [hC, List.getD_eq_getElem?_getD, hmap, Option.getD_some, rowCF, if_pos hsp]

/-- Claim C4, witness: `c4_amended_no_validation` applied to the concrete
negative-maturity batch. -/
theorem c4_witness :
    labelsOneBased [⟨1, 1, 4⟩, ⟨2, -(1 / 4), 0⟩] ∧
    (-(1 / 4) : ℚ) < 0 ∧
    ([[2, 102], [100, 0]] : Mat).getD 1 []
      = (100 : ℚ) :: List.replicate (nCols [⟨1, 1, 4⟩, ⟨2, -(1 / 4), 0⟩] - 1) 0 :=
  ⟨by unfold labelsOneBased; decide, by norm_num,
    c4_amended_no_validation _ _ _ (by unfold labelsOneBased; decide) negative_maturity_eval 1 _ rfl (by norm_num)⟩

/-- Claim C5 (confirmed): for every valid batch (non-negative maturities) on
which the builder returns, both matrices have `len(securities)` rows, every
row of both has `N = nCols` columns, and `N = 0` forces every security's
time-to-maturity to be zero. -/
theorem c5_shapes (rows : List Security) (C M : Mat)
    (hok : cashflows_matrix rows = .ok (C, M))
    (hnn : ∀ s ∈ rows, 0 ≤ s.maturity) :
    C.length = rows.length ∧ M.length = rows.length ∧
      (∀ row ∈ C, row.length = nCols rows) ∧ (∀ row ∈ M, row.length = nCols rows) ∧
      (nCols rows = 0 → ∀ s ∈ rows, s.maturity = 0) := by
  match rows with
  | [] => simp [cashflows_matrix, maxSemiPeriods] at hok
  | s :: rest =>
    replace hok : (if semiPeriods (rest.foldl (fun a t => max a t.maturity) s.maturity) < 0
        then (Except.error BuildError.negativeDimension : Except BuildError (Mat × Mat))
        else fillAll (s :: rest).length
          (zerosMat (s :: rest).length
            (semiPeriods (rest.foldl (fun a t => max a t.maturity) s.maturity)).toNat,
           zerosMat (s :: rest).length
            (semiPeriods (rest.foldl (fun a t => max a t.maturity) s.maturity)).toNat)
          (s :: rest)) = .ok (C, M) := hok
    by_cases hneg : semiPeriods (rest.foldl (fun a t => max a t.maturity) s.maturity) < 0
    · rw [if_pos hneg] at hok
      simp at hok
    · rw [if_neg hneg] at hok
      have hz : ∀ NN : ℕ, ∀ row ∈ zerosMat (s :: rest).length NN, row.length = NN := by
        intro NN row hrow
        rw [List.eq_of_mem_replicate hrow, List.length_replicate]
      have hshape := @fillAll_shape (s :: rest).length (s :: rest)
        (zerosMat (s :: rest).length
          (semiPeriods (rest.foldl (fun a t => max a t.maturity) s.maturity)).toNat,
         zerosMat (s :: rest).length
          (semiPeriods (rest.foldl (fun a t => max a t.maturity) s.maturity)).toNat)
        C M
        (semiPeriods (rest.foldl (fun a t => max a t.maturity) s.maturity)).toNat
      have hres1 := hshape hok
      have hres2 := hres1 (hz _)
      have hres3 := hres2 (hz _)
      obtain ⟨h1, h2, h3, h4⟩ := hres3
      have hncols : nCols (s :: rest)
          = (semiPeriods (rest.foldl (fun a t => max a t.maturity) s.maturity)).toNat := rfl
      refine ⟨?_, ?_, by rw [hncols]; exact h3, by rw [hncols]; exact h4, ?_⟩
      · rw [h1, zerosMat, List.length_replicate]
      · rw [h2, zerosMat, List.length_replicate]
      · intro hN0 t ht
        rw [hncols] at hN0
        have hspmx : semiPeriods (rest.foldl (fun a t => max a t.maturity) s.maturity) ≤ 0 := by
          omega
        have hmx0 : rest.foldl (fun a t => max a t.maturity) s.maturity ≤ 0 :=
          maturity_nonpos_of_semiPeriods_nonpos hspmx
        have hmax := le_foldl_max s.maturity rest
        rcases List.mem_cons.mp ht with rfl | ht
        · have hle := hmax.1
          have hge := hnn t (by simp)
          linarith
        · have hle := hmax.2 t ht
          have hge := hnn t (List.mem_cons_of_mem _ ht)
          linarith

/-- Claim C5, witness: `c5_shapes` at the two-security scenario batch. -/
theorem c5_witness :
    cashflows_matrix [⟨1, 1, 4⟩, ⟨2, 1 / 4, 0⟩]
      = .ok ([[2, 102], [100, 0]], [[1 / 2, 1], [1 / 4, 0]]) ∧
    (∀ s ∈ ([⟨1, 1, 4⟩, ⟨2, 1 / 4, 0⟩] : List Security), 0 ≤ s.maturity) ∧
    (([[2, 102], [100, 0]] : Mat).length = ([⟨1, 1, 4⟩, ⟨2, 1 / 4, 0⟩] : List Security).length ∧
      ([[1 / 2, 1], [1 / 4, 0]] : Mat).length
        = ([⟨1, 1, 4⟩, ⟨2, 1 / 4, 0⟩] : List Security).length ∧
      (∀ row ∈ ([[2, 102], [100, 0]] : Mat),
        row.length = nCols [⟨1, 1, 4⟩, ⟨2, 1 / 4, 0⟩]) ∧
      (∀ row ∈ ([[1 / 2, 1], [1 / 4, 0]] : Mat),
        row.length = nCols [⟨1, 1, 4⟩, ⟨2, 1 / 4, 0⟩]) ∧
      (nCols [⟨1, 1, 4⟩, ⟨2, 1 / 4, 0⟩] = 0 →
        ∀ s ∈ ([⟨1, 1, 4⟩, ⟨2, 1 / 4, 0⟩] : List Security), s.maturity = 0)) :=
  ⟨oneBased_scenario_eval, by norm_num,
    c5_shapes _ _ _ oneBased_scenario_eval (by norm_num)⟩

/-- Claim C6, counterexample: with the pipeline's default 0-based labels the
rows come out rotated, so the positional row-sum identity fails: on the
scenario batch, security 0 (coupon 4, maturity 1.0, hence two periods)
requires its row to sum to `100 + 4/2 * 2 = 104`, but cashflow row 0 of the
returned matrix is `[100, 0]`, summing to 100. -/
theorem c6_counterexample :
    cashflows_matrix [⟨0, 1, 4⟩, ⟨1, 1 / 4, 0⟩]
      = .ok ([[100, 0], [2, 102]], [[1 / 4, 0], [1 / 2, 1]]) ∧
    (([[100, 0], [2, 102]] : Mat).getD 0 []).sum
      ≠ 100 + (4 : ℚ) / 2 * ((semiPeriods 1).toNat : ℚ) := by
  refine ⟨zeroBased_scenario_eval, ?_⟩
  rw [semiPeriods_one]
  norm_num

/-- Claim C6, amended: on a batch carrying the default one-based labels
`1..n` (under which the builder's `label - 1` write lands each security in
its own positional row), whenever the builder returns, the sum of cashflow
row `i` is `100 + coupon_i/2 * periods_i` with
`periods_i = ceil(maturity_i / 0.5)` the row's own period count; with the
pipeline's 0-based labels the rows are rotated and the positional identity
fails (see the counterexample). -/
theorem c6_row_sums (rows : List Security) (C M : Mat)
    (hlab : labelsOneBased rows)
    (hok : cashflows_matrix rows = .ok (C, M))
    (i : ℕ) (s : Security) (hi : rows[i]? = some s) :
    (C.getD i []).sum = 100 + s.coupon / 2 * ((semiPeriods s.maturity).toNat : ℚ) := by
  obtain ⟨hC, _, hside⟩ := cashflows_matrix_rows hlab hok
  obtain ⟨hlt, hel⟩ := List.getElem?_eq_some_iff.mp hi
  have hmem : s ∈ rows := hel ▸ List.getElem_mem hlt
  have hmap : (rows.map (rowCF (nCols rows)))[i]? = some (rowCF (nCols rows) s) := by
    rw [List.getElem?_map, hi]
    rfl
  rw [hC, List.getD_eq_getElem?_getD, hmap, Option.getD_some]
  exact rowCF_sum (hside s hmem).1

/-- Claim C6, witness: `c6_row_sums` at row 0 of the scenario batch
(coupon 4, one year to maturity, hence two periods: 2 + 102 = 100 + 2*2). -/
theorem c6_witness :
    labelsOneBased [⟨1, 1, 4⟩, ⟨2, 1 / 4, 0⟩] ∧
    ([⟨1, 1, 4⟩, ⟨2, 1 / 4, 0⟩] : List Security)[0]? = some ⟨1, 1, 4⟩ ∧
    (([[2, 102], [100, 0]] : Mat).getD 0 []).sum
      = 100 + (4 : ℚ) / 2 * ((semiPeriods 1).toNat : ℚ) :=
  ⟨by unfold labelsOneBased; decide, rfl,
    c6_row_sums _ _ _ (by unfold labelsOneBased; decide) oneBased_scenario_eval 0 ⟨1, 1, 4⟩ rfl⟩

/-- Claim C7, counterexample: with the pipeline's default 0-based labels the
zero-maturity security's positional row holds another security's data: in
the batch where security 1 has `time_to_maturity = 0`, cashflow row 1 of the
returned matrix is `[2, 102]`, whose column 0 is 2, not the claimed single
nonzero cashflow of 100. -/
theorem c7_counterexample :
    cashflows_matrix [⟨0, 1, 4⟩, ⟨1, 0, 0⟩]
      = .ok ([[100, 0], [2, 102]], [[0, 0], [1 / 2, 1]]) ∧
    (([[100, 0], [2, 102]] : Mat).getD 1 []).getD 0 0 ≠ (100 : ℚ) := by
  refine ⟨zeroBased_zero_maturity_eval, ?_⟩
  norm_num

/-- Claim C7, amended: on a batch carrying the default one-based labels
`1..n` (under which the builder's `label - 1` write is positional), whenever
the builder returns, a security with `time_to_maturity = 0` has period count
0 and its row holds the single nonzero cashflow 100 at column 0, with
maturity entry 0 and no coupon entries; with the pipeline's 0-based labels
its positional row holds a different security's data (see the
counterexample). -/
theorem c7_zero_maturity_row (rows : List Security) (C M : Mat)
    (hlab : labelsOneBased rows)
    (hok : cashflows_matrix rows = .ok (C, M))
    (i : ℕ) (s : Security) (hi : rows[i]? = some s) (hm : s.maturity = 0) :
    semiPeriods s.maturity = 0 ∧
    C.getD i [] = (100 : ℚ) :: List.replicate (nCols rows - 1) 0 ∧
    M.getD i [] = (0 : ℚ) :: List.replicate (nCols rows - 1) 0 := by
  have hsp : semiPeriods s.maturity = 0 := by
    rw [hm]
    exact semiPeriods_zero
  obtain ⟨hC, hM, _⟩ := cashflows_matrix_rows hlab hok
  have hmapC : (rows.map (rowCF (nCols rows)))[i]? = some (rowCF (nCols rows) s) := by
    rw [List.getElem?_map, hi]
    rfl
  have hmapM : (rows.map (rowMat (nCols rows)))[i]? = some (rowMat (nCols rows) s) := by
    rw [List.getElem?_map, hi]
    rfl
  refine ⟨hsp, ?_, ?_⟩
  · rw [hC, List.getD_eq_getElem?_getD, hmapC, Option.getD_some, rowCF, if_pos hsp]
  · rw [hM, List.getD_eq_getElem?_getD, hmapM, Option.getD_some, rowMat, if_pos hsp, hm]

/-- Claim C7, witness: `c7_zero_maturity_row` at the second security of a
batch whose second security matures on the valuation date. -/
theorem c7_witness :
    labelsOneBased [⟨1, 1, 4⟩, ⟨2, 0, 0⟩] ∧
    ([⟨1, 1, 4⟩, ⟨2, 0, 0⟩] : List Security)[1]? = some ⟨2, 0, 0⟩ ∧
    (semiPeriods 0 = 0 ∧
      ([[2, 102], [100, 0]] : Mat).getD 1 []
        = (100 : ℚ) :: List.replicate (nCols [⟨1, 1, 4⟩, ⟨2, 0, 0⟩] - 1) 0 ∧
      ([[1 / 2, 1], [0, 0]] : Mat).getD 1 []
        = (0 : ℚ) :: List.replicate (nCols [⟨1, 1, 4⟩, ⟨2, 0, 0⟩] - 1) 0) :=
  ⟨by unfold labelsOneBased; decide, rfl,
    c7_zero_maturity_row _ _ _ (by unfold labelsOneBased; decide) zero_maturity_eval 1 ⟨2, 0, 0⟩ rfl rfl⟩

end FixedIncome
